import Mathlib

set_option maxHeartbeats 1000000
set_option linter.unnecessarySimpa false

namespace ModernRegexp

/-!
Shallow embedding of src/index.js of babel-plugin-transform-modern-regexp.
The file carries two revisions of the plugin; the exported (later) one — the
revision with the useRuntime pre-check, the useRe shorthand and
toRegExpLiteral — is the one embedded here, since the last assignment to
module.exports wins.  The regexp-tree compat transpiler is an external
collaborator and is modelled as an abstract Engine parameter.
-/

/-- One quasi (static chunk) of a template literal; Babel stores its
value.raw and value.cooked texts. -/
structure TemplateElement where
  raw : String
  cooked : String

/-- Babel AST nodes, restricted to the shapes src/index.js inspects.  For a
TemplateLiteral the source reads only expressions.length, so the
interpolated expressions are kept as a count (exprsLen).  extraRaw models
node.extra.raw, with none standing for an absent extra object. -/
inductive Node where
  | identifier (name : String)
  | stringLiteral (value : String)
  | templateLiteral (quasis : List TemplateElement) (exprsLen : Nat)
  | regExpLiteral (pattern : String) (flags : String) (extraRaw : Option String)
  | newExpression (callee : Node) (arguments : List Node)
  | taggedTemplate (tag : Node) (quasi : Node)
  | otherNode

/-- The tree operation a visitor performs on the node it was called with:
return without change, path.replaceWith of a fresh node, or in-place field
mutation (Object.assign on the existing node). -/
inductive VisitAction where
  | keep
  | replaceWith (n : Node)
  | mutateTo (n : Node)

/-- Index of the last occurrence of a character in a character list, if
any. -/
def lastIdxAux (c : Char) : List Char → Option Nat
  | [] => none
  | a :: rest =>
    match lastIdxAux c rest with
    | some i => some (i + 1)
    | none => if a = c then some 0 else none

/-- JS String.prototype.lastIndexOf for a single character: the index of
its last occurrence, or -1 when absent. -/
def jsLastIndexOf (s : String) (c : Char) : Int :=
  match lastIdxAux c s.data with
  | some i => Int.ofNat i
  | none => -1

/-- JS slice index resolution: a negative index counts from the end, and
the result is clamped into the interval from 0 to the length. -/
def jsResolveIndex (len : Nat) (i : Int) : Nat :=
  if i < 0 then (i + Int.ofNat len).toNat else min i.toNat len

/-- JS String.prototype.slice with two arguments. -/
def jsSlice (s : String) (startIdx endIdx : Int) : String :=
  let a := jsResolveIndex s.data.length startIdx
  let b := jsResolveIndex s.data.length endIdx
  String.mk ((s.data.take b).drop a)

/-- JS String.prototype.slice with one argument: from startIdx to the end
of the string. -/
def jsSliceFrom (s : String) (startIdx : Int) : String :=
  jsSlice s startIdx (Int.ofNat s.data.length)

/-- Embeds toRegExpLiteral from src/index.js: slashIndex is
raw.lastIndexOf of the slash character, pattern is raw.slice(1, slashIndex),
flags is raw.slice(slashIndex), and the built RegExpLiteral node carries
extra.raw equal to raw. -/
def toRegExpLiteral (raw : String) : Node :=
  let slashIndex := jsLastIndexOf raw '/'
  let pattern := jsSlice raw 1 slashIndex
  let flags := jsSliceFrom raw slashIndex
  Node.regExpLiteral pattern flags (some raw)

/-- The shape of state.opts.features as a JS value: absent, an array of
strings, or any non-array value. -/
inductive FeaturesOpt where
  | absent
  | arr (xs : List String)
  | nonArray

/-- Resolved plugin options.  useRuntime and useRe model JS truthiness of
the corresponding option values. -/
structure Options where
  useRuntime : Bool
  useRe : Bool
  features : FeaturesOpt

/-- Result object of regexpTree.compatTranspile, exposing getSource and
getFlags. -/
structure CompatResult where
  source : String
  flags : String

/-- The pair returned by getTranslatedData. -/
structure TranslatedData where
  pattern : String
  flags : String

/-- The regexp-tree compat transpiler (external collaborator): from the raw
regexp text and an optional feature whitelist to a compiled result, or an
error when the raw text is not a valid regexp. -/
abbrev Engine := String → Option (List String) → Except String CompatResult

/-- Embeds getTranslatedData from src/index.js: the whitelist is
state.opts.features exactly when that is an array of positive length,
undefined otherwise; the engine result is repackaged as pattern/flags. -/
def getTranslatedData (engine : Engine) (opts : Options) (regexp : String) :
    Except String TranslatedData :=
  let whitelist : Option (List String) :=
    match opts.features with
    | FeaturesOpt.arr xs => if 0 < xs.length then some xs else none
    | _ => none
  match engine regexp whitelist with
  | Except.ok compat => Except.ok ⟨compat.source, compat.flags⟩
  | Except.error e => Except.error e

/-- Embeds the pre hook of the exported plugin: a truthy useRuntime option
throws before any visiting starts. -/
def pre (opts : Options) : Except String Unit :=
  if opts.useRuntime then Except.error "useRuntime is not implemented yet."
  else Except.ok ()

/-- Embeds isNewRegExp from src/index.js: the callee must be the
identifier RegExp and arguments[0] must exist and be a string literal or a
template literal with zero expressions and exactly one quasi. -/
def isNewRegExp : Node → Bool
  | Node.newExpression (Node.identifier name) args =>
    name == "RegExp" &&
      (match args.get? 0 with
       | some (Node.stringLiteral _) => true
       | some (Node.templateLiteral quasis exprsLen) =>
         exprsLen == 0 && quasis.length == 1
       | _ => false)
  | _ => false

/-- Embeds isReTemplate from src/index.js: the tag must be the identifier
re and the quasi a TemplateLiteral whose quasis list has length one (the
source does not inspect the expressions here). -/
def isReTemplate : Node → Bool
  | Node.taggedTemplate (Node.identifier name) (Node.templateLiteral quasis _) =>
    name == "re" && quasis.length == 1
  | _ => false

/-- Value of quasis[0].value.cooked.  A template literal produced by the
parser always has at least one quasi, and every use in the source is
guarded so that the list is a singleton, making the empty case
unreachable. -/
def cookedOfFirstQuasi : List TemplateElement → String
  | q :: _ => q.cooked
  | [] => ""

/-- Value of quasis[0].value.raw, with the same unreachable empty case as
cookedOfFirstQuasi. -/
def rawOfFirstQuasi : List TemplateElement → String
  | q :: _ => q.raw
  | [] => ""

/-- dropWhile never lengthens a list; used for the termination measure of
normDigitEscapes. -/
theorem dropWhile_length_le (p : Char → Bool) :
    ∀ l : List Char, (l.dropWhile p).length ≤ l.length := by
  intro l
  induction l with
  | nil => simp [List.dropWhile]
  | cons a t ih =>
    simp only [List.dropWhile]
    cases p a
    · simp
    · simpa using Nat.le_trans ih (Nat.le_succ _)

/-- Embeds the re.replace call of the TaggedTemplateExpression visitor:
the global pattern of two backslash characters followed by one or more
digits, replaced by one backslash followed by those digits, scanning left
to right exactly as the JS global replace does (on a failed match the scan
advances one position; on a success it continues after the consumed
digits). -/
def normDigitEscapes (l : List Char) : List Char :=
  match l with
  | [] => []
  | [a] => [a]
  | [a, b] => [a, b]
  | a :: b :: c :: rest =>
    if a = '\\' ∧ b = '\\' ∧ c.isDigit then
      '\\' :: c ::
        (rest.takeWhile Char.isDigit ++ normDigitEscapes (rest.dropWhile Char.isDigit))
    else
      a :: normDigitEscapes (b :: c :: rest)
termination_by l.length
decreasing_by
  · simp only [List.length_cons]
    have h := dropWhile_length_le Char.isDigit rest
    omega
  · simp only [List.length_cons]
    omega

/-- String-level wrapper of normDigitEscapes. -/
def normalizeTemplateRaw (s : String) : String :=
  String.mk (normDigitEscapes s.data)

/-- Embeds the RegExpLiteral visitor: Object.assign of the node with
getTranslatedData of node.extra.raw.  Reading extra.raw of a node without
an extra object is a runtime type error, modelled as an error result; a
translation error propagates and nothing is assigned. -/
def RegExpLiteralVisitor (engine : Engine) (opts : Options) :
    Node → Except String VisitAction
  | Node.regExpLiteral _ _ (some raw) =>
    match getTranslatedData engine opts raw with
    | Except.ok d =>
      Except.ok (VisitAction.mutateTo (Node.regExpLiteral d.pattern d.flags (some raw)))
    | Except.error e => Except.error e
  | Node.regExpLiteral _ _ none =>
    Except.error "TypeError: cannot read raw of undefined extra"
  | _ => Except.ok VisitAction.keep

/-- Embeds the NewExpression visitor of the exported plugin: a call that
isNewRegExp accepts is replaced wholesale — path.replaceWith of
toRegExpLiteral applied to the assembled slash-pattern-slash-flags text.
The pattern comes from a string literal value or a single-chunk template
cooked value (the fallback arm mirrors the JS variable staying undefined
and is unreachable under the guard); flags likewise, defaulting to the
empty string when arguments[1] is missing or of another type. -/
def NewExpressionVisitor (node : Node) : VisitAction :=
  match node with
  | Node.newExpression callee args =>
    if isNewRegExp (Node.newExpression callee args) then
      let pattern :=
        match args.get? 0 with
        | some (Node.stringLiteral v) => v
        | some (Node.templateLiteral quasis _) => cookedOfFirstQuasi quasis
        | _ => "undefined"
      let flags :=
        match args.get? 1 with
        | some (Node.stringLiteral v) => v
        | some (Node.templateLiteral quasis _) => cookedOfFirstQuasi quasis
        | _ => ""
      VisitAction.replaceWith (toRegExpLiteral ("/" ++ pattern ++ "/" ++ flags))
    else VisitAction.keep
  | _ => VisitAction.keep

/-- Embeds the TaggedTemplateExpression visitor: gated on the useRe option
and isReTemplate; on a match the first quasi raw text is normalized by the
digit-escape replace and the node is replaced with toRegExpLiteral of the
result. -/
def TaggedTemplateExpressionVisitor (opts : Options) (node : Node) : VisitAction :=
  match node with
  | Node.taggedTemplate tag quasi =>
    if opts.useRe && isReTemplate (Node.taggedTemplate tag quasi) then
      match quasi with
      | Node.templateLiteral quasis _ =>
        VisitAction.replaceWith
          (toRegExpLiteral (normalizeTemplateRaw (rawOfFirstQuasi quasis)))
      | _ => VisitAction.keep
    else VisitAction.keep
  | _ => VisitAction.keep

/-- Applies a visitor action to the visited node, giving the node that ends
up at that tree position. -/
def applyAction (node : Node) : VisitAction → Node
  | VisitAction.keep => node
  | VisitAction.replaceWith m => m
  | VisitAction.mutateTo m => m

/-- Dispatches one node to the visitor registered for its type, as the
visitor table of the exported plugin does. -/
def visitNode (engine : Engine) (opts : Options) (node : Node) :
    Except String Node :=
  match node with
  | Node.regExpLiteral p f e =>
    match RegExpLiteralVisitor engine opts (Node.regExpLiteral p f e) with
    | Except.ok act => Except.ok (applyAction (Node.regExpLiteral p f e) act)
    | Except.error err => Except.error err
  | Node.newExpression c args =>
    Except.ok (applyAction (Node.newExpression c args)
      (NewExpressionVisitor (Node.newExpression c args)))
  | Node.taggedTemplate tag quasi =>
    Except.ok (applyAction (Node.taggedTemplate tag quasi)
      (TaggedTemplateExpressionVisitor opts (Node.taggedTemplate tag quasi)))
  | n => Except.ok n

/-- One pass of the plugin over the constructs of a compilation unit: the
pre hook runs first, and only when it succeeds are the nodes visited. -/
def transformProgram (engine : Engine) (opts : Options) (nodes : List Node) :
    Except String (List Node) :=
  match pre opts with
  | Except.error e => Except.error e
  | Except.ok _ => nodes.mapM (visitNode engine opts)

/-- node.extra.raw of a regex literal node, none elsewhere. -/
def extraRawOf : Node → Option String
  | Node.regExpLiteral _ _ e => e
  | _ => none

/-- Whether an action is an in-place field mutation of the visited node. -/
def isMutateTo : VisitAction → Bool
  | VisitAction.mutateTo _ => true
  | _ => false

/-- Whether an action replaces the visited node with a different node. -/
def isReplaceWith : VisitAction → Bool
  | VisitAction.replaceWith _ => true
  | _ => false

/-- Whether a node is a string literal. -/
def isStringLiteralNode : Node → Bool
  | Node.stringLiteral _ => true
  | _ => false

/-- Whether a node is a template literal. -/
def isTemplateLiteralNode : Node → Bool
  | Node.templateLiteral _ _ => true
  | _ => false

/-- An engine that echoes the raw text back with empty flags; used to
instantiate theorems at concrete inputs. -/
def idEngine : Engine := fun regexp _ => Except.ok ⟨regexp, ""⟩

/-- An engine that rejects every input, standing for a raw text the compat
transpiler cannot parse. -/
def failEngine : Engine := fun _ _ => Except.error "SyntaxError"

/-- Options with all toggles off and no features entry. -/
def defaultOptions : Options := ⟨false, false, FeaturesOpt.absent⟩

/-- Options enabling the re shorthand only. -/
def reOptions : Options := ⟨false, true, FeaturesOpt.absent⟩

/-- toRegExpLiteral always records the raw text it was built from in the
extra.raw field of the node it returns. -/
theorem extraRawOf_toRegExpLiteral (raw : String) :
    extraRawOf (toRegExpLiteral raw) = some raw := rfl

/-- C1: counterexample.  The claim says a matched RegExp constructor call
is rewritten by mutating the call node in place (arguments becoming string
literals, the node itself kept).  On the concrete call of RegExp with
pattern "x" and flags "i", the exported NewExpression visitor instead
discards the call node wholesale, replacing it with a regex-literal node;
no in-place mutation of the call happens. -/
theorem C1_constructor_rewrite_is_replacement_not_mutation :
    NewExpressionVisitor
        (Node.newExpression (Node.identifier "RegExp")
          [Node.stringLiteral "x", Node.stringLiteral "i"])
      = VisitAction.replaceWith (Node.regExpLiteral "x" "/i" (some "/x/i"))
    ∧ isMutateTo
        (NewExpressionVisitor
          (Node.newExpression (Node.identifier "RegExp")
            [Node.stringLiteral "x", Node.stringLiteral "i"])) = false :=
  ⟨rfl, rfl⟩

/-- C1 (amended): for every matched RegExp constructor call the visitor
replaces the whole call node with toRegExpLiteral of the assembled raw
text slash pattern slash flags, discarding the callee and all arguments;
stated for the matched argument shapes: string-literal pattern with
string-literal flags, string-literal pattern with no flags argument, and
single-chunk template pattern with string-literal flags. -/
theorem C1_amended_constructor_rewrite
    (v f : String) (q : TemplateElement) (rest : List Node) :
    NewExpressionVisitor (Node.newExpression (Node.identifier "RegExp")
        (Node.stringLiteral v :: Node.stringLiteral f :: rest))
      = VisitAction.replaceWith (toRegExpLiteral ("/" ++ v ++ "/" ++ f))
    ∧ NewExpressionVisitor (Node.newExpression (Node.identifier "RegExp")
        [Node.stringLiteral v])
      = VisitAction.replaceWith (toRegExpLiteral ("/" ++ v ++ "/"))
    ∧ NewExpressionVisitor (Node.newExpression (Node.identifier "RegExp")
        (Node.templateLiteral [q] 0 :: Node.stringLiteral f :: rest))
      = VisitAction.replaceWith (toRegExpLiteral ("/" ++ q.cooked ++ "/" ++ f)) := by
  refine ⟨rfl, ?_, rfl⟩
  have h : ("/" ++ v ++ "/" ++ "" : String) = "/" ++ v ++ "/" := String.append_empty _
  rw [← h]
  rfl

/-- C2: evaluation at the failing input.  For pattern "x" and flags "i"
the Rebuilder raw text is "/x/i"; decomposing it with toRegExpLiteral
recovers pattern "x" but yields flags "/i" — the slice at slashIndex keeps
the delimiter slash in the flags field, so the produced raw does not
re-parse to the Rebuilder's (pattern, flags) inputs as the claim and the
spec invariant require. -/
theorem C2_toRegExpLiteral_flags_keep_slash :
    toRegExpLiteral "/x/i" = Node.regExpLiteral "x" "/i" (some "/x/i")
    ∧ ("/i" : String) ≠ "i" :=
  ⟨rfl, by decide⟩

/-- C3: counterexample.  For the constructor call of RegExp on the lone
pattern "(", whose raw text "/(/" the translation engine rejects, the
NewExpression visit still commits its tree mutation: the call node is
replaced by an untranslated regex-literal node, so the original node is
not left as it was even though translating its raw text errors. -/
theorem C3_constructor_replaced_despite_translation_error :
    getTranslatedData failEngine defaultOptions "/(/" = Except.error "SyntaxError"
    ∧ visitNode failEngine defaultOptions
        (Node.newExpression (Node.identifier "RegExp") [Node.stringLiteral "("])
        = Except.ok (Node.regExpLiteral "(" "/" (some "/(/"))
    ∧ Node.regExpLiteral "(" "/" (some "/(/")
        ≠ Node.newExpression (Node.identifier "RegExp") [Node.stringLiteral "("] :=
  ⟨rfl, rfl, fun h => Node.noConfusion h⟩

/-- C3 (amended): for a regex-literal construct a translation error does
leave the node untouched — the visitor propagates the error and commits no
mutation; the constructor and tagged-template visits, however, never
consult the translation engine at all: their replacement is committed
independently of any translation outcome, and a translation failure for
their raw text can only surface later, when the replacement literal node
is itself visited, after the original node is already gone. -/
theorem C3_amended_commit_discipline
    (engine engine2 : Engine) (opts : Options) (p f raw err : String)
    (h : getTranslatedData engine opts raw = Except.error err) :
    RegExpLiteralVisitor engine opts (Node.regExpLiteral p f (some raw))
      = Except.error err
    ∧ (∀ callee args, visitNode engine opts (Node.newExpression callee args)
        = visitNode engine2 opts (Node.newExpression callee args))
    ∧ (∀ tag quasi, visitNode engine opts (Node.taggedTemplate tag quasi)
        = visitNode engine2 opts (Node.taggedTemplate tag quasi)) := by
  refine ⟨?_, fun callee args => rfl, fun tag quasi => rfl⟩
  simp only [RegExpLiteralVisitor, h]

/-- C3 (amended) witness at the concrete literal node for "/(/" and the
failing engine. -/
theorem C3_amended_commit_discipline_witness :
    RegExpLiteralVisitor failEngine defaultOptions
        (Node.regExpLiteral "(" "" (some "/(/")) = Except.error "SyntaxError" :=
  (C3_amended_commit_discipline failEngine idEngine defaultOptions
    "(" "" "/(/" "SyntaxError" rfl).1

/-- C4: a truthy useRuntime option makes the whole pass fail with the
not-implemented error raised by the pre hook, before any node is visited
(the result is the error for every node list, so no node is transformed);
with useRuntime false the pre hook raises no error. -/
theorem C4_useRuntime_fails_fast
    (engine : Engine) (opts : Options) (nodes : List Node) :
    (opts.useRuntime = true →
      transformProgram engine opts nodes
        = Except.error "useRuntime is not implemented yet.")
    ∧ (opts.useRuntime = false → pre opts = Except.ok ()) := by
  constructor
  · intro h
    simp [transformProgram, pre, h]
  · intro h
    simp [pre, h]

/-- C4 witness: the pass with useRuntime on fails on a nonempty node list,
and the pre hook with useRuntime off succeeds. -/
theorem C4_useRuntime_fails_fast_witness :
    transformProgram idEngine ⟨true, false, FeaturesOpt.absent⟩
        [Node.regExpLiteral "x" "" (some "/x/")]
      = Except.error "useRuntime is not implemented yet."
    ∧ pre defaultOptions = Except.ok () :=
  ⟨(C4_useRuntime_fails_fast idEngine ⟨true, false, FeaturesOpt.absent⟩
      [Node.regExpLiteral "x" "" (some "/x/")]).1 rfl,
   (C4_useRuntime_fails_fast idEngine defaultOptions []).2 rfl⟩

/-- A digit character is not a backslash. -/
theorem digit_ne_backslash (c : Char) (h : c.isDigit = true) : c ≠ '\\' := by
  intro he
  subst he
  exact absurd h (by decide)

/-- The normalization copies a character other than a backslash and
continues on the tail. -/
theorem norm_step_other (a : Char) (rest : List Char) (h : a ≠ '\\') :
    normDigitEscapes (a :: rest) = a :: normDigitEscapes rest := by
  match rest with
  | [] => simp [normDigitEscapes]
  | [b] => simp [normDigitEscapes]
  | b :: c :: t =>
    rw [normDigitEscapes]
    rw [if_neg]
    intro hcon
    exact h hcon.1

/-- The normalization copies a backslash whose successor is not a
backslash and continues from that successor. -/
theorem norm_step_bs (b : Char) (rest : List Char) (h : b ≠ '\\') :
    normDigitEscapes ('\\' :: b :: rest) = '\\' :: normDigitEscapes (b :: rest) := by
  match rest with
  | [] => simp [normDigitEscapes]
  | c :: t =>
    rw [normDigitEscapes]
    rw [if_neg]
    intro hcon
    exact h hcon.2.1

/-- The normalization leaves a backslash-free prefix unchanged. -/
theorem norm_copy (l r : List Char) (h : ∀ c ∈ l, c ≠ '\\') :
    normDigitEscapes (l ++ r) = l ++ normDigitEscapes r := by
  induction l with
  | nil => rfl
  | cons a t ih =>
    rw [List.cons_append, norm_step_other a (t ++ r) (h a (List.mem_cons_self a t)),
      ih (fun c hc => h c (List.mem_cons_of_mem a hc)), List.cons_append]

/-- takeWhile over an append whose left part wholly satisfies the
predicate. -/
theorem takeWhile_append_of_all (p : Char → Bool) (l r : List Char)
    (h : ∀ c ∈ l, p c = true) :
    (l ++ r).takeWhile p = l ++ r.takeWhile p := by
  induction l with
  | nil => rfl
  | cons a t ih =>
    have ht := ih (fun c hc => h c (List.mem_cons_of_mem a hc))
    simp [List.takeWhile_cons, h a (List.mem_cons_self a t), ht]

/-- dropWhile over an append whose left part wholly satisfies the
predicate. -/
theorem dropWhile_append_of_all (p : Char → Bool) (l r : List Char)
    (h : ∀ c ∈ l, p c = true) :
    (l ++ r).dropWhile p = r.dropWhile p := by
  induction l with
  | nil => rfl
  | cons a t ih =>
    rw [List.cons_append, List.dropWhile_cons, h a (List.mem_cons_self a t)]
    simp only [ite_true]
    exact ih (fun c hc => h c (List.mem_cons_of_mem a hc))

/-- The normalization of any list splits as its leading digits, copied,
followed by the normalization of the rest. -/
theorem norm_digits_decomp (l : List Char) :
    normDigitEscapes l
      = l.takeWhile Char.isDigit ++ normDigitEscapes (l.dropWhile Char.isDigit) := by
  have hsplit := List.takeWhile_append_dropWhile (p := Char.isDigit) (l := l)
  have hcopy := norm_copy (l.takeWhile Char.isDigit) (l.dropWhile Char.isDigit)
    (fun c hc => digit_ne_backslash c (List.mem_takeWhile_imp hc))
  rw [hsplit] at hcopy
  exact hcopy

/-- C5: behaviour of the shorthand-template escape normalization.  For
every nonempty digit sequence ds: a doubled backslash immediately followed
by ds is rewritten to a single backslash followed by ds (with the scan
continuing after the digits); a single backslash followed by ds is left
as is; any character other than a backslash is left unchanged; and a
doubled backslash followed by a non-digit — any other escape sequence — is
left unchanged. -/
theorem C5_normalize_digit_escapes
    (ds rest : List Char) (a c : Char)
    (hne : ds ≠ []) (hds : ∀ d ∈ ds, d.isDigit = true)
    (ha : a ≠ '\\') (hc : c ≠ '\\') (hcd : c.isDigit = false) :
    normDigitEscapes ('\\' :: '\\' :: (ds ++ rest))
        = '\\' :: (ds ++ normDigitEscapes rest)
    ∧ normDigitEscapes ('\\' :: (ds ++ rest))
        = '\\' :: (ds ++ normDigitEscapes rest)
    ∧ normDigitEscapes (a :: rest) = a :: normDigitEscapes rest
    ∧ normDigitEscapes ('\\' :: '\\' :: c :: rest)
        = '\\' :: '\\' :: c :: normDigitEscapes rest := by
  match ds, hne with
  | d :: ds2, _ =>
    have hd : d.isDigit = true := hds d (List.mem_cons_self d ds2)
    have hds2 : ∀ x ∈ ds2, Char.isDigit x = true :=
      fun x hx => hds x (List.mem_cons_of_mem d hx)
    refine ⟨?_, ?_, norm_step_other a rest ha, ?_⟩
    · rw [List.cons_append, normDigitEscapes]
      rw [if_pos ⟨rfl, rfl, hd⟩]
      rw [takeWhile_append_of_all Char.isDigit ds2 rest hds2,
        dropWhile_append_of_all Char.isDigit ds2 rest hds2]
      rw [List.append_assoc, ← norm_digits_decomp rest]
      simp
    · rw [List.cons_append, norm_step_bs d (ds2 ++ rest) (digit_ne_backslash d hd)]
      rw [← List.cons_append, norm_copy (d :: ds2) rest
        (fun x hx => digit_ne_backslash x (hds x hx))]
    · have hcon : ¬('\\' = '\\' ∧ '\\' = '\\' ∧ c.isDigit = true) :=
        fun hcon => absurd hcon.2.2 (by simp [hcd])
      rw [normDigitEscapes, if_neg hcon]
      rw [norm_step_bs c rest hc, norm_step_other c rest hc]

/-- C5 witness: the doubled form of backslash-1 normalizes to the single
form, the single form stays, the letter a stays, and the doubled
backslash-n escape stays. -/
theorem C5_normalize_digit_escapes_witness :
    normDigitEscapes ['\\', '\\', '1'] = ['\\', '1']
    ∧ normDigitEscapes ['\\', '1'] = ['\\', '1']
    ∧ normDigitEscapes ['a'] = ['a']
    ∧ normDigitEscapes ['\\', '\\', 'n'] = ['\\', '\\', 'n'] := by
  have h := C5_normalize_digit_escapes ['1'] [] 'a' 'n'
    (by decide) (by decide) (by decide) (by decide) (by decide)
  exact ⟨by simpa [normDigitEscapes] using h.1, by simpa [normDigitEscapes] using h.2.1,
    by simpa [normDigitEscapes] using h.2.2.1, by simpa [normDigitEscapes] using h.2.2.2⟩

/-- C6: opts.features is passed to the engine as the whitelist exactly
when it is an array with at least one element; an absent, explicitly
empty-array, or non-array features value all pass the undefined whitelist,
and in every one of these shapes getTranslatedData is exactly the engine
call — no error of its own is raised for a malformed features value. -/
theorem C6_features_whitelist
    (engine : Engine) (u r : Bool) (xs : List String) (regexp : String)
    (h : xs ≠ []) :
    getTranslatedData engine ⟨u, r, FeaturesOpt.arr xs⟩ regexp
      = (engine regexp (some xs)).map (fun c => ⟨c.source, c.flags⟩)
    ∧ getTranslatedData engine ⟨u, r, FeaturesOpt.arr []⟩ regexp
      = (engine regexp none).map (fun c => ⟨c.source, c.flags⟩)
    ∧ getTranslatedData engine ⟨u, r, FeaturesOpt.absent⟩ regexp
      = (engine regexp none).map (fun c => ⟨c.source, c.flags⟩)
    ∧ getTranslatedData engine ⟨u, r, FeaturesOpt.nonArray⟩ regexp
      = (engine regexp none).map (fun c => ⟨c.source, c.flags⟩) := by
  have hlen : 0 < xs.length := List.length_pos.mpr h
  refine ⟨?_, ?_, ?_, ?_⟩
  · simp only [getTranslatedData, if_pos hlen]
    cases engine regexp (some xs) <;> rfl
  · cases hE : engine regexp none <;> simp [getTranslatedData, hE, Except.map]
  · simp only [getTranslatedData]
    cases engine regexp none <;> rfl
  · simp only [getTranslatedData]
    cases engine regexp none <;> rfl

/-- C6 witness at a concrete engine, a singleton features array and a
concrete raw text. -/
theorem C6_features_whitelist_witness :
    getTranslatedData idEngine ⟨false, false, FeaturesOpt.arr ["dotAll"]⟩ "/x/"
      = (idEngine "/x/" (some ["dotAll"])).map (fun c => ⟨c.source, c.flags⟩)
    ∧ getTranslatedData idEngine ⟨false, false, FeaturesOpt.nonArray⟩ "/x/"
      = (idEngine "/x/" none).map (fun c => ⟨c.source, c.flags⟩) :=
  ⟨(C6_features_whitelist idEngine false false ["dotAll"] "/x/" (by decide)).1,
   (C6_features_whitelist idEngine false false ["dotAll"] "/x/" (by decide)).2.2.2⟩

/-- C7: isNewRegExp accepts a constructor call exactly when the callee is
the identifier RegExp and the first argument exists and is a string
literal or a template literal with zero interpolated expressions and
exactly one quasi; and whenever it rejects, the NewExpression visitor
keeps the node unchanged. -/
theorem C7_isNewRegExp_characterization (callee : Node) (args : List Node) :
    (isNewRegExp (Node.newExpression callee args) = true
      ↔ (callee = Node.identifier "RegExp"
          ∧ ((∃ v, args.get? 0 = some (Node.stringLiteral v))
             ∨ (∃ quasis k, args.get? 0 = some (Node.templateLiteral quasis k)
                 ∧ k = 0 ∧ quasis.length = 1))))
    ∧ (isNewRegExp (Node.newExpression callee args) = false →
        NewExpressionVisitor (Node.newExpression callee args) = VisitAction.keep) := by
  constructor
  · constructor
    · intro h
      match callee with
      | Node.identifier name =>
        simp only [isNewRegExp, Bool.and_eq_true, beq_iff_eq] at h
        refine ⟨by rw [h.1], ?_⟩
        have h2 := h.2
        match harg : args.get? 0 with
        | some (Node.stringLiteral v) => exact Or.inl ⟨v, rfl⟩
        | some (Node.templateLiteral quasis k) =>
          rw [harg] at h2
          simp only [Bool.and_eq_true, beq_iff_eq] at h2
          exact Or.inr ⟨quasis, k, rfl, h2.1, h2.2⟩
        | some (Node.identifier _) => rw [harg] at h2; exact absurd h2 (by simp)
        | some (Node.regExpLiteral _ _ _) => rw [harg] at h2; exact absurd h2 (by simp)
        | some (Node.newExpression _ _) => rw [harg] at h2; exact absurd h2 (by simp)
        | some (Node.taggedTemplate _ _) => rw [harg] at h2; exact absurd h2 (by simp)
        | some Node.otherNode => rw [harg] at h2; exact absurd h2 (by simp)
        | none => rw [harg] at h2; exact absurd h2 (by simp)
      | Node.stringLiteral _ => exact absurd h (by simp [isNewRegExp])
      | Node.templateLiteral _ _ => exact absurd h (by simp [isNewRegExp])
      | Node.regExpLiteral _ _ _ => exact absurd h (by simp [isNewRegExp])
      | Node.newExpression _ _ => exact absurd h (by simp [isNewRegExp])
      | Node.taggedTemplate _ _ => exact absurd h (by simp [isNewRegExp])
      | Node.otherNode => exact absurd h (by simp [isNewRegExp])
    · rintro ⟨hc, hfirst⟩
      subst hc
      rcases hfirst with ⟨v, hv⟩ | ⟨quasis, k, hq, hk, hlen⟩
      · simp only [isNewRegExp]
        rw [hv]
        simp
      · subst hk
        simp only [isNewRegExp]
        rw [hq]
        simp [hlen]
  · intro h
    simp only [NewExpressionVisitor, h]
    simp

/-- C7 witness: a RegExp call whose first argument is an identifier is
rejected and its node kept. -/
theorem C7_isNewRegExp_characterization_witness :
    NewExpressionVisitor
        (Node.newExpression (Node.identifier "RegExp") [Node.identifier "x"])
      = VisitAction.keep :=
  (C7_isNewRegExp_characterization (Node.identifier "RegExp")
    [Node.identifier "x"]).2 rfl

/-- isReTemplate on a tagged template whose quasi is a template literal
holds exactly when the tag is the identifier re and there is exactly one
quasi. -/
theorem isReTemplate_iff (tag : Node) (qs2 : List TemplateElement) (k : Nat) :
    isReTemplate (Node.taggedTemplate tag (Node.templateLiteral qs2 k)) = true
      ↔ tag = Node.identifier "re" ∧ qs2.length = 1 := by
  cases tag <;> simp [isReTemplate]

/-- C8: for a well-formed template literal (one more quasi than
interpolated expressions, as every parsed template has), the tagged
template is rewritten precisely when the useRe option is on, the tag is
the identifier re, and the template is a single chunk with no
interpolation; and such a match is replaced by the regex literal built
from the normalized raw text of its single chunk. -/
theorem C8_re_template_gate
    (opts : Options) (tag : Node) (q : TemplateElement)
    (qs : List TemplateElement) (k : Nat)
    (hwf : (q :: qs).length = k + 1) :
    (TaggedTemplateExpressionVisitor opts
        (Node.taggedTemplate tag (Node.templateLiteral (q :: qs) k))
        ≠ VisitAction.keep
      ↔ (opts.useRe = true ∧ tag = Node.identifier "re" ∧ qs = [] ∧ k = 0))
    ∧ (opts.useRe = true →
        TaggedTemplateExpressionVisitor opts
            (Node.taggedTemplate (Node.identifier "re") (Node.templateLiteral [q] 0))
          = VisitAction.replaceWith (toRegExpLiteral (normalizeTemplateRaw q.raw))) := by
  constructor
  · have hv : TaggedTemplateExpressionVisitor opts
        (Node.taggedTemplate tag (Node.templateLiteral (q :: qs) k))
        = if opts.useRe && isReTemplate
              (Node.taggedTemplate tag (Node.templateLiteral (q :: qs) k))
          then VisitAction.replaceWith
              (toRegExpLiteral (normalizeTemplateRaw (rawOfFirstQuasi (q :: qs))))
          else VisitAction.keep := rfl
    rw [hv]
    by_cases hcond : (opts.useRe && isReTemplate
        (Node.taggedTemplate tag (Node.templateLiteral (q :: qs) k))) = true
    · rw [if_pos hcond]
      rcases Bool.and_eq_true_iff.mp hcond with ⟨hre, htmpl⟩
      rcases (isReTemplate_iff tag (q :: qs) k).mp htmpl with ⟨htag, hlen⟩
      have hlen0 : qs.length = 0 := by simpa using hlen
      have hqs : qs = [] := List.eq_nil_of_length_eq_zero hlen0
      have hk : k = 0 := by
        rw [hqs] at hwf
        simpa using hwf.symm
      simp [hre, htag, hqs, hk]
    · rw [if_neg hcond]
      constructor
      · intro hne
        exact absurd rfl hne
      · rintro ⟨hre, htag, hqs, hk⟩
        subst htag
        subst hqs
        exact (hcond (by simp [hre, isReTemplate])).elim
  · intro hre
    simp [TaggedTemplateExpressionVisitor, isReTemplate, hre, rawOfFirstQuasi]

/-- C8 witness: with useRe on, the tag re and a single chunk, the node is
rewritten to the normalized literal. -/
theorem C8_re_template_gate_witness :
    TaggedTemplateExpressionVisitor reOptions
        (Node.taggedTemplate (Node.identifier "re")
          (Node.templateLiteral [⟨"/x/", "/x/"⟩] 0))
      = VisitAction.replaceWith
          (toRegExpLiteral (normalizeTemplateRaw "/x/")) :=
  (C8_re_template_gate reOptions (Node.identifier "re") ⟨"/x/", "/x/"⟩ [] 0 rfl).2 rfl

/-- C9: a RegExp constructor call whose first argument is a matched string
literal but whose second argument is neither a string literal nor a
template literal is still rewritten, with the flags defaulting to the
empty string; the result does not depend on that second argument, which is
discarded with the rest of the call node. -/
theorem C9_dynamic_flags_discarded
    (v : String) (e : Node) (rest : List Node)
    (h1 : isStringLiteralNode e = false) (h2 : isTemplateLiteralNode e = false) :
    NewExpressionVisitor (Node.newExpression (Node.identifier "RegExp")
        (Node.stringLiteral v :: e :: rest))
      = VisitAction.replaceWith (toRegExpLiteral ("/" ++ v ++ "/")) := by
  have hs : ("/" ++ v ++ "/" ++ "" : String) = "/" ++ v ++ "/" := String.append_empty _
  rw [← hs]
  cases e with
  | stringLiteral w => exact Bool.noConfusion h1
  | templateLiteral qs2 k => exact Bool.noConfusion h2
  | identifier name => rfl
  | regExpLiteral p f x => rfl
  | newExpression c a => rfl
  | taggedTemplate t u => rfl
  | otherNode => rfl

/-- C9 witness: the call of RegExp on the string "x" with an identifier as
flags argument is rewritten with empty flags. -/
theorem C9_dynamic_flags_discarded_witness :
    NewExpressionVisitor (Node.newExpression (Node.identifier "RegExp")
        [Node.stringLiteral "x", Node.identifier "dynamicFlags"])
      = VisitAction.replaceWith (toRegExpLiteral ("/" ++ "x" ++ "/")) :=
  C9_dynamic_flags_discarded "x" (Node.identifier "dynamicFlags") [] rfl rfl

/-- C10: toRegExpLiteral records exactly the raw text it was built from in
extra.raw; every node either rewriting visitor substitutes for a construct
has a defined extra.raw; and on a literal node whose extra.raw is defined
the RegExpLiteral visitor's unconditional extra.raw read succeeds, the
visit being exactly the translation of that raw. -/
theorem C10_extra_raw_invariant
    (raw : String) (engine : Engine) (opts : Options) (n m : Node) (p f : String) :
    extraRawOf (toRegExpLiteral raw) = some raw
    ∧ (NewExpressionVisitor n = VisitAction.replaceWith m → extraRawOf m ≠ none)
    ∧ (TaggedTemplateExpressionVisitor opts n = VisitAction.replaceWith m →
        extraRawOf m ≠ none)
    ∧ RegExpLiteralVisitor engine opts (Node.regExpLiteral p f (some raw))
        = (getTranslatedData engine opts raw).map
            (fun d => VisitAction.mutateTo
              (Node.regExpLiteral d.pattern d.flags (some raw))) := by
  refine ⟨extraRawOf_toRegExpLiteral raw, ?_, ?_, ?_⟩
  · intro h
    cases n with
    | newExpression c args =>
      simp only [NewExpressionVisitor] at h
      split at h
      · injection h with h3
        rw [← h3, extraRawOf_toRegExpLiteral]
        simp
      · exact VisitAction.noConfusion h
    | identifier name => exact VisitAction.noConfusion h
    | stringLiteral w => exact VisitAction.noConfusion h
    | templateLiteral qs2 k => exact VisitAction.noConfusion h
    | regExpLiteral p2 f2 x => exact VisitAction.noConfusion h
    | taggedTemplate t u => exact VisitAction.noConfusion h
    | otherNode => exact VisitAction.noConfusion h
  · intro h
    cases n with
    | taggedTemplate tag quasi =>
      simp only [TaggedTemplateExpressionVisitor] at h
      split at h
      · cases quasi with
        | templateLiteral qs2 k =>
          injection h with h3
          rw [← h3, extraRawOf_toRegExpLiteral]
          simp
        | identifier name => exact VisitAction.noConfusion h
        | stringLiteral w => exact VisitAction.noConfusion h
        | regExpLiteral p2 f2 x => exact VisitAction.noConfusion h
        | newExpression c a => exact VisitAction.noConfusion h
        | taggedTemplate t u => exact VisitAction.noConfusion h
        | otherNode => exact VisitAction.noConfusion h
      · exact VisitAction.noConfusion h
    | identifier name => exact VisitAction.noConfusion h
    | stringLiteral w => exact VisitAction.noConfusion h
    | templateLiteral qs2 k => exact VisitAction.noConfusion h
    | regExpLiteral p2 f2 x => exact VisitAction.noConfusion h
    | newExpression c args => exact VisitAction.noConfusion h
    | otherNode => exact VisitAction.noConfusion h
  · cases hE : getTranslatedData engine opts raw <;>
      simp [RegExpLiteralVisitor, hE, Except.map]

/-- C10 witness: the extra.raw of the node built for "/x/" is defined and
equal to "/x/", and so is that of the node the NewExpression rewrite of
new RegExp("x") substitutes. -/
theorem C10_extra_raw_invariant_witness :
    extraRawOf (toRegExpLiteral "/x/") = some "/x/"
    ∧ extraRawOf (Node.regExpLiteral "x" "/" (some "/x/")) ≠ none := by
  have h := C10_extra_raw_invariant "/x/" idEngine defaultOptions
    (Node.newExpression (Node.identifier "RegExp") [Node.stringLiteral "x"])
    (Node.regExpLiteral "x" "/" (some "/x/")) "x" "/"
  exact ⟨h.1, h.2.1 rfl⟩

end ModernRegexp
